import Mathlib

/-!
Verification development for the Random-Image-Rotator augmentation tool
(`image_rotator.py`).  The transform pipeline and the dataset orchestrator
are embedded shallowly: pixel buffers are abstracted, while sizes, pixel
modes, the per-variant modification records, directory bookkeeping and the
train/val assignment are tracked exactly as the source computes them.
Randomness (angles, scale factors, crop offsets, the fallback choice) is
injected as explicit data, matching the spec's view of randomness as a
seedable input.
-/

namespace ImageRotator

/-- Pixel modes of a decoded image, as named by the imaging library. -/
inductive Mode
  | RGB
  | RGBA
  | LA
  | L
  | P
  | CMYK
deriving DecidableEq, Repr

/-- Modelled from the spec: which pixel modes carry an alpha channel (the
imaging library's decode primitive is an external collaborator; RGBA and LA
are its alpha-bearing modes). -/
def Mode.hasAlpha : Mode → Bool
  | .RGBA => true
  | .LA => true
  | _ => false

/-- Mode conversion performed at the top of process_image: the source
converts to RGB exactly when the decoded mode equals RGBA. -/
def convertStep (m : Mode) : Mode :=
  if m = Mode.RGBA then Mode.RGB else m

/-- Image size in pixels, the imaging library's (width, height). -/
structure Size where
  w : ℕ
  h : ℕ
deriving DecidableEq, Repr

/-- Python's int() applied to the product of a pixel count n and a rational
q: truncation toward zero, computed on the exact fraction (n * q.num) / q.den
(Int.tdiv is truncation toward zero, matching Python int()). -/
def pyIntMul (n : ℕ) (q : ℚ) : ℤ :=
  ((n : ℤ) * q.num).tdiv (q.den : ℤ)

/-- Truncation toward zero clamped to ℕ, for pixel dimensions. -/
def pyIntMulNat (n : ℕ) (q : ℚ) : ℕ :=
  (pyIntMul n q).toNat

/-- Ceiling of the fraction a / b for a positive denominator b. -/
def ceilDiv (a b : ℤ) : ℤ :=
  -((-a) / b)

/-- One variant's random draws, injected as data so the transform pipeline
is a pure function of them.  cosAbs and sinAbs stand for the absolute cosine
and absolute sine of the drawn rotation angle. -/
structure Draws where
  scaleFactor : ℚ
  angle : ℚ
  cosAbs : ℚ
  sinAbs : ℚ
  cropLeft : ℕ
  cropTop : ℕ
deriving DecidableEq, Repr

/-- Record of the modifications applied to one variant, mirroring the
modifications dict built by process_image. -/
structure TransformParams where
  scale : Option ℚ
  rotation : Option ℚ
  crop : Option (ℕ × ℕ × ℕ × ℕ)
deriving DecidableEq, Repr

/-- Python truthiness of the modifications dict: empty means falsy. -/
def TransformParams.isEmpty (m : TransformParams) : Bool :=
  m.scale.isNone && m.rotation.isNone && m.crop.isNone

/-- Size after the scale step: both dimensions multiplied by the drawn
factor and truncated with int(), as in new_size of process_image. -/
def scaleStep (factor : ℚ) (sz : Size) : Size :=
  ⟨pyIntMulNat sz.w factor, pyIntMulNat sz.h factor⟩

/-- Ceiling of a*c + b*s for pixel counts a, b and rationals c, s, computed
over the common denominator c.den * s.den. -/
def rotateExpandLen (a b : ℕ) (c s : ℚ) : ℕ :=
  (ceilDiv ((a : ℤ) * c.num * (s.den : ℤ) + (b : ℤ) * s.num * (c.den : ℤ))
    ((c.den : ℤ) * (s.den : ℤ))).toNat

/-- Modelled from the spec: the imaging library's rotate with expand=True is
an external primitive whose output canvas is the bounding box of the rotated
rectangle; for a w by h image and an angle of absolute cosine c and absolute
sine s the bounding box is (w*c + h*s) by (w*s + h*c), rounded up to whole
pixels. -/
def rotateExpandSize (c s : ℚ) (sz : Size) : Size :=
  ⟨rotateExpandLen sz.w sz.h c s, rotateExpandLen sz.h sz.w c s⟩

/-- Shallow embedding of ImageProcessor.process_image.  The whole body runs
inside one try/except, modelled by the fails flag: any decode or encode
exception yields none, the Python (None, None).  Pixel content is
abstracted; the embedding tracks mode, size and the modifications record in
the exact order of the source: RGBA flattening, then scale, then rotate with
expand (and no crop-back afterwards), then best-effort crop, then save. -/
def process_image (fails : Bool) (mode : Mode) (sz : Size)
    (rotate scale crop : Bool) (cropRatio : ℚ) (d : Draws) :
    Option (TransformParams × Size × Mode) :=
  if fails then none
  else
    let mode1 := convertStep mode
    let sz1 := if scale then scaleStep d.scaleFactor sz else sz
    let mods1 : TransformParams :=
      ⟨if scale then some d.scaleFactor else none, none, none⟩
    let sz2 := if rotate then rotateExpandSize d.cosAbs d.sinAbs sz1 else sz1
    let mods2 : TransformParams :=
      ⟨mods1.scale, if rotate then some d.angle else none, none⟩
    let cw := pyIntMulNat sz2.w cropRatio
    let ch := pyIntMulNat sz2.h cropRatio
    if crop ∧ cw < sz2.w ∧ ch < sz2.h then
      some (⟨mods2.scale, mods2.rotation,
             some (d.cropLeft, d.cropTop, d.cropLeft + cw, d.cropTop + ch)⟩,
            ⟨cw, ch⟩, mode1)
    else
      some (mods2, sz2, mode1)

/-- One entry of os.listdir: a bare name, which may denote a subdirectory. -/
structure Entry where
  name : String
  isDir : Bool
deriving DecidableEq, Repr

/-- Extension as computed by Python's os.path.splitext on a bare name: the
suffix from the last dot, provided some earlier character of the name is not
a dot (leading dots never start an extension). -/
def splitextExt (name : String) : String :=
  let cs := name.toList
  let dots := (List.range cs.length).filter (fun i => cs.getD i ' ' = '.')
  match dots.getLast? with
  | none => ""
  | some dIdx =>
    if (List.range dIdx).any (fun i => cs.getD i ' ' ≠ '.') then
      String.mk (cs.drop dIdx)
    else ""

/-- Lower-casing applied to extensions (ASCII suffices for this set). -/
def lowerStr (s : String) : String :=
  String.mk (s.toList.map Char.toLower)

def supported_formats : List String :=
  [".jpg", ".jpeg", ".png", ".bmp", ".tiff"]

/-- The listing filter of process_multiple_images: keep exactly the entries
whose lower-cased splitext extension is supported.  The source filters
os.listdir by extension alone, with no check that the entry is a file. -/
def image_files (entries : List Entry) : List Entry :=
  entries.filter (fun e => supported_formats.contains (lowerStr (splitextExt e.name)))

/-- Configuration passed to process_multiple_images (the interactive CLI
layer supplies already-validated parameters). -/
structure RunConfig where
  numVariations : ℕ
  operations : List String
  trainRatio : ℚ

/-- The environment of one run: the directory listing, whether the two
output directories already exist, and per-file / per-variant oracles for the
decoded mode and size, the decode/encode failure outcomes, the random draws
and the index drawn by random.choice in the fallback. -/
structure RunInput where
  entries : List Entry
  trainDirExists : Bool
  valDirExists : Bool
  modes : String → Mode
  sizes : String → Size
  fails : String → ℕ → Bool
  draws : String → ℕ → Draws
  choice : String → ℕ → ℕ

/-- The per-variant operation list of process_multiple_images: rotate and
scale are taken from the configured list, crop only on top of a non-empty
list so far; if the result is empty while the configured list is not, one
operation is drawn from the configured list (random.choice, index k). -/
def current_operations (operations : List String) (k : ℕ) : List String :=
  let c1 := if "rotate" ∈ operations then ["rotate"] else []
  let c2 := if "scale" ∈ operations then c1 ++ ["scale"] else c1
  let c3 := if "crop" ∈ operations ∧ 0 < c2.length then c2 ++ ["crop"] else c2
  if c3.isEmpty ∧ ¬operations.isEmpty then
    [operations.getD (k % operations.length) ""]
  else c3

/-- train_count of process_multiple_images: int(num_variations * train_ratio),
computed once per run, before the loop over files. -/
def train_count (numVariations : ℕ) (trainRatio : ℚ) : ℤ :=
  pyIntMul numVariations trainRatio

/-- Partition for variant index i, as in is_train of the source. -/
def partitionOf (tc : ℤ) (i : ℕ) : String :=
  if (i : ℤ) < tc then "train" else "val"

/-- All (file, variant index) iterations of the nested loops, in order. -/
def perVariant (numVariations : ℕ) (files : List String) : List (String × ℕ) :=
  files.flatMap (fun f => (List.range numVariations).map (fun i => (f, i)))

/-- One inner-loop iteration: compute the per-variant operation list and
call process_image with the membership flags and the default crop ratio 0.8
(process_multiple_images passes no scale_range/crop_ratio overrides). -/
def variantRun (cfg : RunConfig) (inp : RunInput) (f : String) (i : ℕ) :
    Option (TransformParams × Size × Mode) :=
  let ops := current_operations cfg.operations (inp.choice f i)
  process_image (inp.fails f i) (inp.modes f) (inp.sizes f)
    (decide ("rotate" ∈ ops)) (decide ("scale" ∈ ops)) (decide ("crop" ∈ ops))
    (mkRat 4 5) (inp.draws f i)

/-- One row of variant bookkeeping: file, index, partition directory and the
operation list selected for that variant. -/
structure VariantRecord where
  file : String
  idx : ℕ
  partition : String
  ops : List String
deriving DecidableEq, Repr

/-- Observable outcome of one orchestrator run. -/
structure RunResult where
  createdDirs : List String
  noImagesError : Bool
  totalVariations : ℕ
  decodeCalls : List (String × ℕ)
  assignments : List VariantRecord
  written : List (String × String × ℕ)
  processedCount : ℕ
deriving DecidableEq, Repr

/-- The image_files local of process_multiple_images, as bare names. -/
def runFiles (inp : RunInput) : List String :=
  (image_files inp.entries).map Entry.name

/-- The directories the two makedirs calls actually create:
os.makedirs with exist_ok creates a directory only when it is absent. -/
def runCreatedDirs (inp : RunInput) : List String :=
  (if inp.trainDirExists then [] else ["train"]) ++
  (if inp.valDirExists then [] else ["val"])

/-- The variant bookkeeping rows of the nested loops, in iteration order:
partition from is_train (index below train_count), operation list from the
per-variant selection. -/
def runAssignments (cfg : RunConfig) (inp : RunInput) : List VariantRecord :=
  (perVariant cfg.numVariations (runFiles inp)).map (fun p =>
    ⟨p.1, p.2, partitionOf (train_count cfg.numVariations cfg.trainRatio) p.2,
      current_operations cfg.operations (inp.choice p.1 p.2)⟩)

/-- The outcome of every process_image call of the run, in order. -/
def runOutcomes (cfg : RunConfig) (inp : RunInput) :
    List ((String × ℕ) × Option (TransformParams × Size × Mode)) :=
  (perVariant cfg.numVariations (runFiles inp)).map (fun p =>
    (p, variantRun cfg inp p.1 p.2))

/-- The files the run saves: one per process_image call that does not raise,
tagged with the partition directory it is saved under. -/
def runWritten (cfg : RunConfig) (inp : RunInput) : List (String × String × ℕ) :=
  (runOutcomes cfg inp).filterMap (fun q =>
    q.2.map (fun _ =>
      (partitionOf (train_count cfg.numVariations cfg.trainRatio) q.1.2, q.1.1, q.1.2)))

/-- processed_count: the variants whose modifications dict is truthy. -/
def runProcessedCount (cfg : RunConfig) (inp : RunInput) : ℕ :=
  ((runOutcomes cfg inp).filter (fun q =>
    match q.2 with
    | some r => !r.1.isEmpty
    | none => false)).length

/-- Shallow embedding of ImageProcessor.process_multiple_images.  The two
output directories are created (when absent) before the listing is examined;
the run stops with the no-images error when the filtered listing is empty;
otherwise the nested loops call process_image once per (file, variant) pair
— each call opens the source file again, recorded in decodeCalls — write one
output per successful call, and processed_count counts the variants whose
modifications dict is truthy. -/
def process_multiple_images (cfg : RunConfig) (inp : RunInput) : RunResult :=
  if (runFiles inp).isEmpty then
    ⟨runCreatedDirs inp, true, 0, [], [], [], 0⟩
  else
    ⟨runCreatedDirs inp, false, (runFiles inp).length * cfg.numVariations,
      perVariant cfg.numVariations (runFiles inp), runAssignments cfg inp,
      runWritten cfg inp, runProcessedCount cfg inp⟩

/-- The size entering the crop step: after the scale step (when enabled) and
the rotate step (when enabled), in the fixed source order scale then rotate. -/
def preCropSize (sc ro : Bool) (d : Draws) (sz : Size) : Size :=
  let sz1 := if sc then scaleStep d.scaleFactor sz else sz
  if ro then rotateExpandSize d.cosAbs d.sinAbs sz1 else sz1

/-- Draws with angle 0 (absolute cosine 1, absolute sine 0), unit scale and
zero crop offsets, for concrete runs. -/
def simpleDraws : Draws := ⟨1, 0, 1, 0, 0, 0⟩

/-- Draws for an exact 90 degree rotation: absolute cosine 0, sine 1. -/
def rot90Draws : Draws := ⟨1, 90, 0, 1, 0, 0⟩

/-- A run environment with one supported image a.jpg of size 100x50, both
output directories already present, and no failures. -/
def inpA : RunInput :=
  ⟨[⟨"a.jpg", false⟩], true, true, fun _ => Mode.RGB, fun _ => ⟨100, 50⟩,
   fun _ _ => false, fun _ _ => simpleDraws, fun _ _ => 0⟩

/-- The same environment with two supported images. -/
def inpAB : RunInput :=
  ⟨[⟨"a.jpg", false⟩, ⟨"b.png", false⟩], true, true, fun _ => Mode.RGB,
   fun _ => ⟨100, 50⟩, fun _ _ => false, fun _ _ => simpleDraws, fun _ _ => 0⟩

/-- Five supported images, where decoding c.jpg always fails. -/
def inpFive : RunInput :=
  ⟨[⟨"a.jpg", false⟩, ⟨"b.jpg", false⟩, ⟨"c.jpg", false⟩, ⟨"d.jpg", false⟩,
    ⟨"e.jpg", false⟩], true, true, fun _ => Mode.RGB, fun _ => ⟨100, 50⟩,
   fun f _ => f == "c.jpg", fun _ _ => simpleDraws, fun _ _ => 0⟩

/-- An input directory with no supported image at all, and output
directories that do not exist yet. -/
def inpEmptyDir : RunInput :=
  ⟨[⟨"notes.txt", false⟩], false, false, fun _ => Mode.RGB, fun _ => ⟨100, 50⟩,
   fun _ _ => false, fun _ _ => simpleDraws, fun _ _ => 0⟩

/-- Concrete form of the 0.8 ratio used throughout the examples. -/
lemma mkRat_four_five : mkRat 4 5 = (4 / 5 : ℚ) := by
  rw [Rat.mkRat_eq_div]; norm_num

/-- pyIntMul computes the floor of n * q whenever q is nonnegative, which is
the rounding the spec states for train_count and the crop dimensions. -/
lemma pyIntMul_eq_floor (n : ℕ) (q : ℚ) (hq : 0 ≤ q) :
    pyIntMul n q = ⌊(n : ℚ) * q⌋ := by
  have hnum : 0 ≤ q.num := Rat.num_nonneg.mpr hq
  have htd : ((n : ℤ) * q.num).tdiv (q.den : ℤ) = ((n : ℤ) * q.num) / (q.den : ℤ) :=
    Int.tdiv_eq_ediv (by positivity) (Int.ofNat_nonneg _)
  have hden : ((q.den : ℚ)) ≠ 0 := Nat.cast_ne_zero.mpr q.den_pos.ne'
  have hqq : (n : ℚ) * q = (((n : ℤ) * q.num : ℤ) : ℚ) / ((q.den : ℕ) : ℚ) := by
    rw [eq_div_iff hden]
    push_cast
    rw [mul_assoc, mul_comm q ((q.den : ℚ)), Rat.den_mul_eq_num]
  rw [pyIntMul, htd, hqq, Rat.floor_intCast_div_natCast]

/-- The floor form of the crop dimension computation. -/
lemma pyIntMulNat_eq_floor (n : ℕ) (q : ℚ) (hq : 0 ≤ q) :
    pyIntMulNat n q = (⌊(n : ℚ) * q⌋).toNat := by
  rw [pyIntMulNat, pyIntMul_eq_floor n q hq]

/-- rotateExpandLen is the ceiling of a*c + b*s. -/
lemma rotateExpandLen_eq_ceil (a b : ℕ) (c s : ℚ) :
    rotateExpandLen a b c s = (⌈(a : ℚ) * c + (b : ℚ) * s⌉).toNat := by
  have hD : (((c.den * s.den : ℕ)) : ℚ) ≠ 0 := by
    push_cast
    exact mul_ne_zero (Nat.cast_ne_zero.mpr c.den_pos.ne')
      (Nat.cast_ne_zero.mpr s.den_pos.ne')
  have hx : (a : ℚ) * c + (b : ℚ) * s =
      (((a : ℤ) * c.num * (s.den : ℤ) + (b : ℤ) * s.num * (c.den : ℤ) : ℤ) : ℚ) /
        ((c.den * s.den : ℕ) : ℚ) := by
    rw [eq_div_iff hD]
    push_cast
    rw [add_mul,
      show (a : ℚ) * c * ((c.den : ℚ) * (s.den : ℚ)) =
        (a : ℚ) * ((c.den : ℚ) * c) * (s.den : ℚ) by ring,
      show (b : ℚ) * s * ((c.den : ℚ) * (s.den : ℚ)) =
        (b : ℚ) * ((s.den : ℚ) * s) * (c.den : ℚ) by ring,
      Rat.den_mul_eq_num, Rat.den_mul_eq_num]
  rw [rotateExpandLen, ceilDiv, hx]
  congr 1
  have h1 : ((c.den : ℤ) * (s.den : ℤ)) = ((c.den * s.den : ℕ) : ℤ) := by push_cast; ring
  rw [h1, ← Rat.floor_intCast_div_natCast
    (-((a : ℤ) * c.num * (s.den : ℤ) + (b : ℤ) * s.num * (c.den : ℤ))) (c.den * s.den)]
  have h2 : ((-((a : ℤ) * c.num * (s.den : ℤ) + (b : ℤ) * s.num * (c.den : ℤ)) : ℤ) : ℚ) /
      ((c.den * s.den : ℕ) : ℚ) =
      -((((a : ℤ) * c.num * (s.den : ℤ) + (b : ℤ) * s.num * (c.den : ℤ) : ℤ) : ℚ) /
        ((c.den * s.den : ℕ) : ℚ)) := by
    push_cast
    ring
  rw [h2, Int.floor_neg, neg_neg]

/-- Summing an indicator that pays v exactly at f over a duplicate-free list
containing f gives v. -/
lemma sum_map_ite_eq (l : List String) (f : String) (v : ℕ)
    (hnd : l.Nodup) (hm : f ∈ l) :
    (l.map (fun g => if g = f then v else 0)).sum = v := by
  induction l with
  | nil => cases hm
  | cons a t ih =>
    by_cases haf : a = f
    · subst haf
      have hnotin : a ∉ t := (List.nodup_cons.mp hnd).1
      have hz : (t.map (fun g => if g = a then v else 0)).sum = 0 := by
        apply List.sum_eq_zero
        intro x hx
        rcases List.mem_map.mp hx with ⟨g, hg, rfl⟩
        rw [if_neg]
        intro hga
        exact hnotin (hga ▸ hg)
      simp [hz]
    · have hmt : f ∈ t := by
        rcases List.mem_cons.mp hm with h | h
        · exact absurd h.symm haf
        · exact h
      simp [if_neg haf, ih (List.nodup_cons.mp hnd).2 hmt]

/-- The length of a filterMap as a count of the inputs mapped to some. -/
lemma length_filterMap_eq_countP {α β : Type} (F : α → Option β) (l : List α) :
    (l.filterMap F).length = l.countP (fun a => (F a).isSome) := by
  induction l with
  | nil => rfl
  | cons a t ih =>
    cases h : F a <;> simp [List.filterMap_cons, h, List.countP_cons, ih]

/-- A count and the count of its complement add to the length. -/
lemma countP_not_add_countP {α : Type} (p : α → Bool) (l : List α) :
    l.countP (fun a => !(p a)) + l.countP p = l.length := by
  induction l with
  | nil => rfl
  | cons a t ih =>
    cases h : p a <;> simp [List.countP_cons, h] <;> omega

/-- The element random.choice picks from a non-empty list is a member. -/
lemma getD_mem_of_ne_nil (ops : List String) (hne : ops ≠ []) (k : ℕ) :
    ops.getD (k % ops.length) "" ∈ ops := by
  have hlen : 0 < ops.length := List.length_pos.mpr hne
  have hlt : k % ops.length < ops.length := Nat.mod_lt _ hlen
  rw [List.getD_eq_getElem _ _ hlt]
  exact List.getElem_mem hlt

/-- Total number of loop iterations over all files. -/
lemma perVariant_length (n : ℕ) (files : List String) :
    (perVariant n files).length = files.length * n := by
  induction files with
  | nil => simp [perVariant]
  | cons a t ih =>
    have hstep : perVariant n (a :: t) =
        (List.range n).map (fun i => (a, i)) ++ perVariant n t := by
      simp [perVariant]
    rw [hstep, List.length_append, List.length_map, List.length_range, ih,
      List.length_cons, Nat.succ_mul]
    exact Nat.add_comm n (t.length * n)

/-- Counting the variants of a single file f across the whole iteration
sequence reduces to a count over the index range, when the file listing has
no duplicate names. -/
lemma countP_perVariant (n : ℕ) (files : List String) (f : String) (p : ℕ → Bool)
    (hnd : files.Nodup) (hm : f ∈ files) :
    (perVariant n files).countP (fun q => q.1 == f && p q.2) =
      (List.range n).countP p := by
  unfold perVariant
  rw [List.countP_flatMap]
  have hmap : files.map (List.countP (fun q => q.1 == f && p q.2) ∘
      (fun g => (List.range n).map (fun i => (g, i)))) =
      files.map (fun g => if g = f then (List.range n).countP p else 0) := by
    apply List.map_congr_left
    intro g hg
    simp only [Function.comp_apply, List.countP_map]
    by_cases hgf : g = f
    · subst hgf
      rw [if_pos rfl]
      congr 1
      funext i
      simp [Function.comp]
    · rw [if_neg hgf]
      apply List.countP_eq_zero.mpr
      intro i hi
      simp [Function.comp, beq_false_of_ne hgf]
  rw [hmap, sum_map_ite_eq files f _ hnd hm]

/-- A run over a directory with at least one supported image takes the main
branch of process_multiple_images. -/
lemma process_multiple_images_of_ne_nil (cfg : RunConfig) (inp : RunInput)
    (hne : runFiles inp ≠ []) :
    process_multiple_images cfg inp =
      ⟨runCreatedDirs inp, false, (runFiles inp).length * cfg.numVariations,
        perVariant cfg.numVariations (runFiles inp), runAssignments cfg inp,
        runWritten cfg inp, runProcessedCount cfg inp⟩ := by
  unfold process_multiple_images
  rw [if_neg]
  simp [List.isEmpty_iff, hne]

/-- A process_image call succeeds exactly when no exception fires. -/
lemma variantRun_isSome (cfg : RunConfig) (inp : RunInput) (f : String) (i : ℕ) :
    (variantRun cfg inp f i).isSome = !inp.fails f i := by
  cases h : inp.fails f i <;>
    simp [variantRun, process_image, h, apply_ite Option.isSome]

/-- With rotate or scale configured, the per-variant operation list is the
fixed list determined by the three memberships; the fallback never fires. -/
lemma current_operations_of_mem (ops : List String) (k : ℕ)
    (hor : "rotate" ∈ ops ∨ "scale" ∈ ops) :
    current_operations ops k =
      (if "rotate" ∈ ops then ["rotate"] else []) ++
      (if "scale" ∈ ops then ["scale"] else []) ++
      (if "crop" ∈ ops then ["crop"] else []) := by
  by_cases hr : "rotate" ∈ ops <;> by_cases hs : "scale" ∈ ops <;>
    by_cases hc : "crop" ∈ ops <;>
    simp [current_operations, hr, hs, hc] <;> tauto

/-- With an empty configured list the per-variant list stays empty: the
fallback requires a non-empty configured list. -/
lemma current_operations_nil (k : ℕ) : current_operations [] k = [] := by
  simp [current_operations]

/-- A non-failing call with no configured operations still succeeds, with an
empty (falsy) modifications dict and an untouched size. -/
lemma variantRun_empty_ops (cfg : RunConfig) (inp : RunInput) (f : String) (i : ℕ)
    (hops : cfg.operations = []) (hnf : inp.fails f i = false) :
    variantRun cfg inp f i =
      some (⟨none, none, none⟩, inp.sizes f, convertStep (inp.modes f)) := by
  simp [variantRun, hops, current_operations_nil, process_image, hnf]

/-- The number of files written equals the number of non-failing calls. -/
lemma runWritten_length (cfg : RunConfig) (inp : RunInput) :
    (runWritten cfg inp).length =
      (perVariant cfg.numVariations (runFiles inp)).countP
        (fun p => !inp.fails p.1 p.2) := by
  unfold runWritten runOutcomes
  rw [length_filterMap_eq_countP, List.countP_map]
  congr 1
  funext p
  simp [Function.comp, variantRun_isSome]

/-- processed_count never counts a failing call. -/
lemma runProcessedCount_le (cfg : RunConfig) (inp : RunInput) :
    runProcessedCount cfg inp ≤
      (perVariant cfg.numVariations (runFiles inp)).countP
        (fun p => !inp.fails p.1 p.2) := by
  unfold runProcessedCount runOutcomes
  rw [← List.countP_eq_length_filter, List.countP_map]
  apply List.countP_mono_left
  intro p hp hsat
  simp only [Function.comp_apply] at hsat
  have hsome : (variantRun cfg inp p.1 p.2).isSome = true := by
    cases hv : variantRun cfg inp p.1 p.2 with
    | none => rw [hv] at hsat; simp at hsat
    | some r => simp
  rw [variantRun_isSome] at hsome
  exact hsome

/-- The run threshold at the spec's example parameters. -/
lemma train_count_ten : train_count 10 (4 / 5 : ℚ) = 8 := by
  rw [← mkRat_four_five]
  decide

/-- Claim C1 counterexample: an image of size 100x50 entering the rotate
step with rotation enabled and a drawn angle of 90 degrees leaves
process_image with size 50x100, not the 100x50 that entered the rotate
step: the source rotates with expand=True and never center-crops back. -/
theorem c1_rotate_size_counterexample :
    (process_image false Mode.RGB ⟨100, 50⟩ true false false (mkRat 4 5) rot90Draws).map
        (fun x => x.2.1) = some ⟨50, 100⟩ ∧ (⟨50, 100⟩ : Size) ≠ (⟨100, 50⟩ : Size) := by
  constructor
  · decide
  · decide

/-- Claim C1 amended: with rotation enabled (and crop disabled) the size
returned by process_image is the expanded bounding-box size of the size that
entered the rotate step — the post-scale size when scaling ran first — and
no center-crop back to the entering size takes place, so the output size is
the bounding box of the rotated rectangle rather than the entering size. -/
theorem c1_rotate_expand_no_crop_back (mode : Mode) (sz : Size) (sc : Bool)
    (r : ℚ) (d : Draws) :
    (process_image false mode sz true sc false r d).map (fun x => x.2.1) =
      some (rotateExpandSize d.cosAbs d.sinAbs
        (if sc then scaleStep d.scaleFactor sz else sz)) := by
  simp [process_image]

/-- Claim C6: writing (W, H) for the current size entering the crop step
(after the scale and rotate steps) and r for the nonnegative crop ratio, the
crop dimensions are the floors of W * r and H * r; when W > crop_w and
H > crop_h the variant's size becomes exactly (crop_w, crop_h) and the crop
box built from the drawn offsets is recorded; otherwise the crop step is
skipped, the size stays the pre-crop size, no crop entry is recorded, and
the variant is still produced (the call still returns a result). -/
theorem c6_crop_best_effort (mode : Mode) (sz : Size) (ro sc : Bool) (r : ℚ)
    (d : Draws) (hr : 0 ≤ r) :
    (∀ n : ℕ, pyIntMulNat n r = (⌊(n : ℚ) * r⌋).toNat) ∧
    (pyIntMulNat (preCropSize sc ro d sz).w r < (preCropSize sc ro d sz).w ∧
        pyIntMulNat (preCropSize sc ro d sz).h r < (preCropSize sc ro d sz).h →
      process_image false mode sz ro sc true r d =
        some (⟨if sc then some d.scaleFactor else none,
               if ro then some d.angle else none,
               some (d.cropLeft, d.cropTop,
                 d.cropLeft + pyIntMulNat (preCropSize sc ro d sz).w r,
                 d.cropTop + pyIntMulNat (preCropSize sc ro d sz).h r)⟩,
              ⟨pyIntMulNat (preCropSize sc ro d sz).w r,
               pyIntMulNat (preCropSize sc ro d sz).h r⟩, convertStep mode)) ∧
    (¬(pyIntMulNat (preCropSize sc ro d sz).w r < (preCropSize sc ro d sz).w ∧
        pyIntMulNat (preCropSize sc ro d sz).h r < (preCropSize sc ro d sz).h) →
      process_image false mode sz ro sc true r d =
        some (⟨if sc then some d.scaleFactor else none,
               if ro then some d.angle else none, none⟩,
              preCropSize sc ro d sz, convertStep mode)) := by
  refine ⟨fun n => pyIntMulNat_eq_floor n r hr, ?_, ?_⟩
  · intro h
    simp only [preCropSize] at h
    simp [process_image, preCropSize, h.1, h.2]
  · intro h
    simp only [preCropSize] at h
    simp [process_image, preCropSize, h]

/-- Claim C6 witness: at a 10x10 image with crop ratio 4/5 the crop runs and
yields the 8x8 size with the crop box recorded; at crop ratio 1 the margin
test fails, the crop is skipped and the size and record are untouched. -/
theorem c6_crop_best_effort_witness :
    process_image false Mode.RGB ⟨10, 10⟩ false false true (mkRat 4 5)
        ⟨1, 0, 1, 0, 2, 3⟩ =
      some (⟨none, none, some (2, 3, 10, 11)⟩, ⟨8, 8⟩, Mode.RGB) ∧
    process_image false Mode.RGB ⟨10, 10⟩ false false true 1 ⟨1, 0, 1, 0, 2, 3⟩ =
      some (⟨none, none, none⟩, ⟨10, 10⟩, Mode.RGB) := by
  constructor
  · exact ((c6_crop_best_effort Mode.RGB ⟨10, 10⟩ false false (mkRat 4 5)
      ⟨1, 0, 1, 0, 2, 3⟩ (by decide)).2.1 (by decide)).trans (by decide)
  · exact ((c6_crop_best_effort Mode.RGB ⟨10, 10⟩ false false 1
      ⟨1, 0, 1, 0, 2, 3⟩ (by decide)).2.2 (by decide)).trans (by decide)

/-- Claim C8 counterexample: an LA-mode input (grayscale with alpha) has an
alpha channel but is not flattened to RGB, because the conversion in
process_image tests for the RGBA mode only. -/
theorem c8_alpha_flatten_counterexample :
    Mode.hasAlpha Mode.LA = true ∧ convertStep Mode.LA ≠ Mode.RGB := by
  decide

/-- Claim C8 amended: process_image flattens exactly the RGBA mode to RGB
before any transformation; every other mode, including the alpha-bearing LA
mode, passes through unchanged, so the mode of a returned image is
convertStep of the input mode and still carries alpha iff the input mode was
LA. -/
theorem c8_rgba_flatten_amended (m : Mode) (sz : Size) (ro sc cr : Bool)
    (r : ℚ) (d : Draws) :
    (process_image false m sz ro sc cr r d).map (fun x => x.2.2) =
      some (convertStep m) ∧
    convertStep Mode.RGBA = Mode.RGB ∧
    (Mode.hasAlpha (convertStep m) = true ↔ m = Mode.LA) := by
  refine ⟨?_, by decide, ?_⟩
  · simp [process_image,
      apply_ite (Option.map (fun x : TransformParams × Size × Mode => x.2.2))]
  · cases m <;> decide

/-- Claim C9 counterexample: a subdirectory named photos.jpg is enumerated
by the listing filter — subdirectories are not ignored, because the source
filters the os.listdir entries by extension alone. -/
theorem c9_subdirectory_counterexample :
    image_files [⟨"photos.jpg", true⟩] = [⟨"photos.jpg", true⟩] ∧
    (Entry.mk "photos.jpg" true).isDir = true := by
  decide

/-- Claim C9 amended: the enumeration keeps exactly the entries directly
inside the input directory whose extension, lower-cased, is one of the five
supported ones, whether the entry is a regular file or a subdirectory; in
particular a directory holding one JPEG file and one GIF file yields exactly
the JPEG entry. -/
theorem c9_enumeration_amended (entries : List Entry) (e : Entry) :
    (e ∈ image_files entries ↔
      e ∈ entries ∧
        supported_formats.contains (lowerStr (splitextExt e.name)) = true) ∧
    image_files [⟨"a.jpg", false⟩, ⟨"b.gif", false⟩] = [⟨"a.jpg", false⟩] := by
  constructor
  · simp only [image_files]
    exact List.mem_filter
  · decide

/-- Claim C10: for a non-empty configured operation list drawn from rotate,
scale and crop, the per-variant operation list is independent of the index
drawn by random.choice, hence identical for every variant, every image and
every run with the same configuration; the fallback can only fire when the
configured list holds neither rotate nor scale, and then it deterministically
yields crop. -/
theorem c10_operations_deterministic (ops : List String) (k k2 : ℕ)
    (hne : ops ≠ [])
    (hsub : ∀ x ∈ ops, x = "rotate" ∨ x = "scale" ∨ x = "crop") :
    current_operations ops k = current_operations ops k2 ∧
    ("rotate" ∉ ops → "scale" ∉ ops → current_operations ops k = ["crop"]) := by
  by_cases hr : "rotate" ∈ ops
  · refine ⟨?_, fun h => absurd hr h⟩
    rw [current_operations_of_mem ops k (Or.inl hr),
      current_operations_of_mem ops k2 (Or.inl hr)]
  · by_cases hs : "scale" ∈ ops
    · refine ⟨?_, fun _ h => absurd hs h⟩
      rw [current_operations_of_mem ops k (Or.inr hs),
        current_operations_of_mem ops k2 (Or.inr hs)]
    · have hall : ∀ x ∈ ops, x = "crop" := by
        intro x hx
        rcases hsub x hx with h | h | h
        · exact absurd (h ▸ hx) hr
        · exact absurd (h ▸ hx) hs
        · exact h
      have hcur : ∀ j : ℕ, current_operations ops j = ["crop"] := by
        intro j
        have hgd : ops.getD (j % ops.length) "" = "crop" :=
          hall _ (getD_mem_of_ne_nil ops hne j)
        simp only [current_operations, hr, hs, List.isEmpty_iff, hne]
        simp [List.isEmpty_iff, hne]
        simpa using hgd
      exact ⟨(hcur k).trans (hcur k2).symm, fun _ _ => hcur k⟩

/-- Claim C10 witness: the crop-only configuration, the only one reaching
the fallback, yields the crop list for any two choice indices. -/
theorem c10_operations_deterministic_witness :
    current_operations ["crop"] 0 = current_operations ["crop"] 7 ∧
    current_operations ["crop"] 0 = ["crop"] := by
  have h := c10_operations_deterministic ["crop"] 0 7 (by decide) (by decide)
  exact ⟨h.1, h.2 (by decide) (by decide)⟩

/-- Claim C2: for every run, the train threshold is the floor of
num_variations times train_ratio (train_ratio lies in [0,1], so it is
nonnegative), computed once per run; in every run each variant row is
assigned to train exactly when its 0-based index is below that threshold — a
pure function of the index alone, the same for every source image; and in
particular with num_variations 10 and train_ratio 0.8 every enumerated
source image (directory listings carry no duplicate names) gets exactly 8
train rows and 2 val rows. -/
theorem c2_train_val_split (cfg : RunConfig) (inp : RunInput) :
    (0 ≤ cfg.trainRatio →
      train_count cfg.numVariations cfg.trainRatio =
        ⌊(cfg.numVariations : ℚ) * cfg.trainRatio⌋) ∧
    (∀ a ∈ (process_multiple_images cfg inp).assignments,
      a.partition =
        if (a.idx : ℤ) < train_count cfg.numVariations cfg.trainRatio
        then "train" else "val") ∧
    (cfg.numVariations = 10 → cfg.trainRatio = 4 / 5 →
      ∀ f : String, f ∈ runFiles inp → (runFiles inp).Nodup →
        ((process_multiple_images cfg inp).assignments.countP
          (fun a => a.file == f && a.partition == "train")) = 8 ∧
        ((process_multiple_images cfg inp).assignments.countP
          (fun a => a.file == f && a.partition == "val")) = 2) := by
  refine ⟨?_, ?_, ?_⟩
  · intro hq
    unfold train_count
    exact pyIntMul_eq_floor cfg.numVariations cfg.trainRatio hq
  · intro a ha
    by_cases hemp : runFiles inp = []
    · have hie : (runFiles inp).isEmpty = true := by simp [hemp]
      simp [process_multiple_images, hie] at ha
    · rw [process_multiple_images_of_ne_nil cfg inp hemp] at ha
      have ha2 : a ∈ runAssignments cfg inp := ha
      unfold runAssignments at ha2
      rcases List.mem_map.mp ha2 with ⟨p, hp, rfl⟩
      simp [partitionOf]
  · intro hn hr f hmem hnd
    have hne : runFiles inp ≠ [] := List.ne_nil_of_mem hmem
    have hrec := process_multiple_images_of_ne_nil cfg inp hne
    have hass : (process_multiple_images cfg inp).assignments =
        runAssignments cfg inp := by rw [hrec]
    constructor
    · rw [hass]
      unfold runAssignments
      rw [List.countP_map]
      have hco : ((fun a : VariantRecord => a.file == f && a.partition == "train") ∘
          (fun p : String × ℕ => (⟨p.1, p.2,
            partitionOf (train_count cfg.numVariations cfg.trainRatio) p.2,
            current_operations cfg.operations (inp.choice p.1 p.2)⟩ : VariantRecord))) =
          (fun q : String × ℕ => q.1 == f &&
            (partitionOf (train_count cfg.numVariations cfg.trainRatio) q.2 == "train")) :=
        rfl
      rw [hco, countP_perVariant cfg.numVariations (runFiles inp) f
        (fun i => partitionOf (train_count cfg.numVariations cfg.trainRatio) i == "train")
        hnd hmem, hn, hr, train_count_ten]
      decide
    · rw [hass]
      unfold runAssignments
      rw [List.countP_map]
      have hco : ((fun a : VariantRecord => a.file == f && a.partition == "val") ∘
          (fun p : String × ℕ => (⟨p.1, p.2,
            partitionOf (train_count cfg.numVariations cfg.trainRatio) p.2,
            current_operations cfg.operations (inp.choice p.1 p.2)⟩ : VariantRecord))) =
          (fun q : String × ℕ => q.1 == f &&
            (partitionOf (train_count cfg.numVariations cfg.trainRatio) q.2 == "val")) :=
        rfl
      rw [hco, countP_perVariant cfg.numVariations (runFiles inp) f
        (fun i => partitionOf (train_count cfg.numVariations cfg.trainRatio) i == "val")
        hnd hmem, hn, hr, train_count_ten]
      decide

/-- Claim C2 witness: at the 10-variant ratio-0.8 parameters the threshold
is the floor value 8, and a two-image run gives the image a.jpg exactly 8
train rows and 2 val rows. -/
theorem c2_train_val_split_witness :
    train_count 10 (4 / 5 : ℚ) = ⌊(10 : ℚ) * (4 / 5)⌋ ∧
    ((process_multiple_images ⟨10, ["rotate"], 4 / 5⟩ inpAB).assignments.countP
      (fun a => a.file == "a.jpg" && a.partition == "train")) = 8 ∧
    ((process_multiple_images ⟨10, ["rotate"], 4 / 5⟩ inpAB).assignments.countP
      (fun a => a.file == "a.jpg" && a.partition == "val")) = 2 := by
  have h := c2_train_val_split ⟨10, ["rotate"], 4 / 5⟩ inpAB
  have hcounts := h.2.2 rfl rfl "a.jpg" (by decide) (by decide)
  exact ⟨h.1 (by norm_num), hcounts.1, hcounts.2⟩

/-- Claim C3 counterexample: on a directory with no supported image and not
yet existing output directories, the run does report the no-images error and
writes nothing, but it has already created both output_root/train and
output_root/val, which the claim says are not created. -/
theorem c3_no_images_counterexample :
    (process_multiple_images ⟨5, ["rotate"], mkRat 4 5⟩ inpEmptyDir).noImagesError =
      true ∧
    (process_multiple_images ⟨5, ["rotate"], mkRat 4 5⟩ inpEmptyDir).createdDirs =
      ["train", "val"] ∧
    (process_multiple_images ⟨5, ["rotate"], mkRat 4 5⟩ inpEmptyDir).written = [] := by
  decide

/-- Claim C3 amended: with zero supported images the run stops with the
no-images condition before decoding or writing anything — no decode call, no
file written, nothing counted — but only after the two makedirs calls, so
output_root/train and output_root/val are created whenever they were absent. -/
theorem c3_no_images_fails_after_mkdirs (cfg : RunConfig) (inp : RunInput)
    (h : image_files inp.entries = []) :
    (process_multiple_images cfg inp).noImagesError = true ∧
    (process_multiple_images cfg inp).written = [] ∧
    (process_multiple_images cfg inp).processedCount = 0 ∧
    (process_multiple_images cfg inp).decodeCalls = [] ∧
    (process_multiple_images cfg inp).createdDirs =
      (if inp.trainDirExists then [] else ["train"]) ++
      (if inp.valDirExists then [] else ["val"]) := by
  have hfiles : runFiles inp = [] := by simp [runFiles, h]
  simp [process_multiple_images, hfiles, runCreatedDirs]

/-- Claim C3 witness: the amended behaviour at a concrete run. -/
theorem c3_no_images_fails_after_mkdirs_witness :
    (process_multiple_images ⟨5, ["rotate"], mkRat 4 5⟩ inpEmptyDir).noImagesError =
      true ∧
    (process_multiple_images ⟨5, ["rotate"], mkRat 4 5⟩ inpEmptyDir).processedCount =
      0 := by
  have h := c3_no_images_fails_after_mkdirs ⟨5, ["rotate"], mkRat 4 5⟩ inpEmptyDir
    (by decide)
  exact ⟨h.1, h.2.2.1⟩

/-- Claim C4 counterexample: invoked with an empty operations list on a
directory holding one image, the orchestrator does not fail fast: it
processes the image and writes one (untransformed) variant file, while
counting none of it in processed_count. -/
theorem c4_empty_ops_counterexample :
    (process_multiple_images ⟨1, [], mkRat 4 5⟩ inpA).noImagesError = false ∧
    (process_multiple_images ⟨1, [], mkRat 4 5⟩ inpA).written =
      [("val", "a.jpg", 0)] ∧
    (process_multiple_images ⟨1, [], mkRat 4 5⟩ inpA).processedCount = 0 := by
  decide

/-- Claim C4 amended: the orchestrator itself performs no empty-operations
check: with an empty configured list every variant of every enumerated image
is still processed and written (as an untransformed JPEG copy), while the
modifications dict stays empty so processed_count ends at 0; rejecting an
empty selection happens only in the interactive CLI layer. -/
theorem c4_empty_ops_no_failfast (cfg : RunConfig) (inp : RunInput)
    (hops : cfg.operations = []) (hnf : ∀ f i, inp.fails f i = false) :
    (process_multiple_images cfg inp).processedCount = 0 ∧
    (process_multiple_images cfg inp).written.length =
      (runFiles inp).length * cfg.numVariations := by
  by_cases hemp : runFiles inp = []
  · have : (runFiles inp).isEmpty = true := by simp [hemp]
    simp [process_multiple_images, this, hemp]
  · have hrec := process_multiple_images_of_ne_nil cfg inp hemp
    constructor
    · rw [hrec]
      show runProcessedCount cfg inp = 0
      unfold runProcessedCount runOutcomes
      rw [List.length_eq_zero, List.filter_eq_nil_iff]
      intro q hq
      rcases List.mem_map.mp hq with ⟨p, hp, rfl⟩
      rw [variantRun_empty_ops cfg inp p.1 p.2 hops (hnf p.1 p.2)]
      simp [TransformParams.isEmpty]
    · rw [hrec]
      show (runWritten cfg inp).length = _
      rw [runWritten_length]
      have hall : ∀ p ∈ perVariant cfg.numVariations (runFiles inp),
          (!inp.fails p.1 p.2) = true := by
        intro p hp
        rw [hnf p.1 p.2]
        rfl
      rw [List.countP_eq_length.mpr hall, perVariant_length]

/-- Claim C4 witness: the amended behaviour at a concrete run with two
variants of one image. -/
theorem c4_empty_ops_no_failfast_witness :
    (process_multiple_images ⟨2, [], mkRat 4 5⟩ inpA).processedCount = 0 ∧
    (process_multiple_images ⟨2, [], mkRat 4 5⟩ inpA).written.length = 2 := by
  have h := c4_empty_ops_no_failfast ⟨2, [], mkRat 4 5⟩ inpA rfl (fun _ _ => rfl)
  exact ⟨h.1, h.2.trans (by decide)⟩

/-- Claim C5 counterexample: a run producing two variants of the single
image a.jpg opens (decodes) that source file twice, not exactly once as the
claim states — process_image re-opens the file on every variant. -/
theorem c5_decode_per_variant_counterexample :
    ((process_multiple_images ⟨2, ["rotate"], mkRat 4 5⟩ inpA).decodeCalls.filter
      (fun p => p.1 == "a.jpg")).length = 2 ∧ (2 : ℕ) ≠ 1 := by
  decide

/-- Claim C5 amended: the orchestrator invokes the decode capability once
per variant — num_variations times per enumerated source image, not once per
image — since each process_image call reopens the input path. -/
theorem c5_decode_once_per_variant (cfg : RunConfig) (inp : RunInput) (f : String)
    (hmem : f ∈ runFiles inp) (hnd : (runFiles inp).Nodup) :
    ((process_multiple_images cfg inp).decodeCalls.filter
      (fun p => p.1 == f)).length = cfg.numVariations := by
  have hne : runFiles inp ≠ [] := List.ne_nil_of_mem hmem
  rw [process_multiple_images_of_ne_nil cfg inp hne]
  show ((perVariant cfg.numVariations (runFiles inp)).filter
    (fun p => p.1 == f)).length = _
  rw [← List.countP_eq_length_filter]
  have hpred : (fun p : String × ℕ => p.1 == f) =
      (fun q : String × ℕ => q.1 == f && (fun _ : ℕ => true) q.2) := by
    funext p
    simp
  rw [hpred,
    countP_perVariant cfg.numVariations (runFiles inp) f (fun _ => true) hnd hmem]
  simp [List.countP_true]

/-- Claim C5 witness: the amended behaviour at a three-variant run. -/
theorem c5_decode_once_per_variant_witness :
    ((process_multiple_images ⟨3, ["rotate"], mkRat 4 5⟩ inpA).decodeCalls.filter
      (fun p => p.1 == "a.jpg")).length = 3 :=
  c5_decode_once_per_variant ⟨3, ["rotate"], mkRat 4 5⟩ inpA "a.jpg"
    (by decide) (by decide)

/-- Claim C7: the theoretical total is files times variants; every
non-failing call produces a written file (failures never abort the loop or
the run, which always returns a result record); processed_count never counts
a failing variant, so it stays below the total by at least the number of
failures; and with at least one failing variant the final count is strictly
less than the theoretical total. -/
theorem c7_per_variant_failure_isolation (cfg : RunConfig) (inp : RunInput) :
    (process_multiple_images cfg inp).totalVariations =
      (runFiles inp).length * cfg.numVariations ∧
    (process_multiple_images cfg inp).written.length =
      ((perVariant cfg.numVariations (runFiles inp)).filter
        (fun p => !inp.fails p.1 p.2)).length ∧
    (process_multiple_images cfg inp).processedCount +
      ((perVariant cfg.numVariations (runFiles inp)).filter
        (fun p => inp.fails p.1 p.2)).length ≤
      (process_multiple_images cfg inp).totalVariations ∧
    ((∃ p ∈ perVariant cfg.numVariations (runFiles inp), inp.fails p.1 p.2 = true) →
      (process_multiple_images cfg inp).processedCount <
        (process_multiple_images cfg inp).totalVariations) := by
  by_cases hemp : runFiles inp = []
  · simp [process_multiple_images, hemp, perVariant]
  · have hrec := process_multiple_images_of_ne_nil cfg inp hemp
    have htot : (process_multiple_images cfg inp).totalVariations =
        (runFiles inp).length * cfg.numVariations := by rw [hrec]
    have hwr : (process_multiple_images cfg inp).written.length =
        ((perVariant cfg.numVariations (runFiles inp)).filter
          (fun p => !inp.fails p.1 p.2)).length := by
      rw [hrec]
      show (runWritten cfg inp).length = _
      rw [runWritten_length, List.countP_eq_length_filter]
    have hproc : (process_multiple_images cfg inp).processedCount ≤
        ((perVariant cfg.numVariations (runFiles inp)).filter
          (fun p => !inp.fails p.1 p.2)).length := by
      rw [hrec]
      show runProcessedCount cfg inp ≤ _
      rw [← List.countP_eq_length_filter]
      exact runProcessedCount_le cfg inp
    have hsum : ((perVariant cfg.numVariations (runFiles inp)).filter
          (fun p => !inp.fails p.1 p.2)).length +
        ((perVariant cfg.numVariations (runFiles inp)).filter
          (fun p => inp.fails p.1 p.2)).length =
        (runFiles inp).length * cfg.numVariations := by
      rw [← List.countP_eq_length_filter, ← List.countP_eq_length_filter,
        countP_not_add_countP, perVariant_length]
    refine ⟨htot, hwr, ?_, ?_⟩
    · rw [htot]
      omega
    · rintro ⟨p, hp, hfail⟩
      have hpos : 0 <
          ((perVariant cfg.numVariations (runFiles inp)).filter
            (fun p => inp.fails p.1 p.2)).length := by
        rw [← List.countP_eq_length_filter]
        exact List.countP_pos_iff.mpr ⟨p, hp, hfail⟩
      rw [htot]
      omega

/-- Claim C7 witness: with five images, two variants each and every decode of
c.jpg failing, the run still returns and its final count is strictly below
the theoretical total of ten. -/
theorem c7_per_variant_failure_isolation_witness :
    (process_multiple_images ⟨2, ["rotate"], mkRat 4 5⟩ inpFive).processedCount <
      (process_multiple_images ⟨2, ["rotate"], mkRat 4 5⟩ inpFive).totalVariations :=
  (c7_per_variant_failure_isolation ⟨2, ["rotate"], mkRat 4 5⟩ inpFive).2.2.2
    ⟨("c.jpg", 0), by decide, by decide⟩

end ImageRotator
